import Mathlib

set_option maxRecDepth 8000

/-!
Shallow embedding of the `zeppelin-to-databricks` repository
(`zeppelin_converter.py` and `copy_dir.py`) and proofs about it.

Python strings are modelled as `List Char`; the filesystem is modelled as a
function from paths to an optional kind (regular file, directory, other);
all fallible I/O is modelled with `Except`/`Option`.
-/

namespace ZC

/-! # Definitions -/

/-- Python strings, modelled as lists of characters. -/
abbrev Str := List Char

/-! ## Python string primitives used by the converter -/

/-- Code points treated as whitespace by CPython `str.split()` / `str.strip()`
(the `Py_UNICODE_ISSPACE` table). -/
def pySpaceCodes : List Nat :=
  [9, 10, 11, 12, 13, 28, 29, 30, 31, 32, 133, 160, 5760,
   8192, 8193, 8194, 8195, 8196, 8197, 8198, 8199, 8200, 8201, 8202,
   8232, 8233, 8239, 8287, 12288]

/-- Whether a character is Python whitespace. -/
def isPySpace (c : Char) : Bool := decide (c.toNat ∈ pySpaceCodes)

/-- Strip characters satisfying `p` from both ends, as Python `str.strip(chars)`:
drop a maximal prefix and a maximal suffix of such characters. -/
def pyStripBy (p : Char → Bool) (s : Str) : Str :=
  ((s.dropWhile p).reverse.dropWhile p).reverse

/-- Python `str.strip()` with no argument: strip whitespace from both ends. -/
def stripWS (s : Str) : Str := pyStripBy isPySpace s

/-- The characters stripped by `str.strip('. ')` in `sanitize_path_component`. -/
def isDotSpace (c : Char) : Bool := c = '.' || c = ' '

/-- Python `str.strip('. ')`. -/
def stripDotSpace (s : Str) : Str := pyStripBy isDotSpace s

/-- Negation of `isPySpace`, used to delimit words of `str.split()`. -/
def notSpace (c : Char) : Bool := !isPySpace c

/-- Python `str.split()` (split on runs of whitespace, dropping empty parts),
written with explicit fuel so that the recursion is structural. -/
def pySplitF : Nat → Str → List Str
  | _, [] => []
  | 0, _ :: _ => []
  | fuel + 1, c :: rest =>
    if isPySpace c then pySplitF fuel rest
    else (c :: rest.takeWhile notSpace) :: pySplitF fuel (rest.dropWhile notSpace)

/-- Python `str.split()`. -/
def pySplit (s : Str) : List Str := pySplitF s.length s

/-- Python `' '.join(parts)`. -/
def spJoin (parts : List Str) : Str := List.intercalate [' '] parts

/-! ## The Path Sanitizer (`sanitize_path_component`, zeppelin_converter.py 237-253) -/

/-- The fixed list of problematic characters replaced by the sanitizer
(zeppelin_converter.py line 243). -/
def problematic_chars : List Char :=
  ['/', '\\', ':', '*', '?', '\"', '<', '>', '|', '\t', '\n', '\r']

/-- Python `s.replace(a, b)` for single characters. -/
def replaceAll (a b : Char) (s : Str) : Str := s.map fun c => if c = a then b else c

/-- The loop of sequential `replace(char, '_')` calls (lines 244-246). -/
def replaceProblematic (s : Str) : Str :=
  problematic_chars.foldl (fun acc ch => replaceAll ch '_' acc) s

/-- Line 249: `''.join(c if ord(c) >= 32 and c not in problematic_chars else '_' ...)`. -/
def removeControl (s : Str) : Str :=
  s.map fun c => if 32 ≤ c.toNat ∧ c ∉ problematic_chars then c else '_'

/-- Line 250: `' '.join(safe_component.split())`. -/
def normalizeWS (s : Str) : Str := spJoin (pySplit s)

/-- `sanitize_path_component` (zeppelin_converter.py lines 237-253). -/
def sanitize_path_component (s : Str) : Str :=
  if s = [] then []
  else stripDotSpace (normalizeWS (removeControl (replaceProblematic s)))

/-- The per-character effect of lines 244-249 combined: problematic characters
and code points below 32 become an underscore, all else is unchanged. -/
def sanitizeChar (c : Char) : Char :=
  if c ∈ problematic_chars ∨ c.toNat < 32 then '_' else c

/-! ### Rebuilding a whitespace-normalized string from its own split -/

/-- The binary relation "not two adjacent spaces". -/
def NoTwoSp (a b : Char) : Prop := ¬(a = ' ' ∧ b = ' ')

/-! ### The combined per-character effect of the sanitizer's replacement phase -/

/-- Composition of the sequential single-character replacements. -/
def replChain : List Char → Char → Char
  | [], c => c
  | a :: as, c => replChain as (if c = a then '_' else c)

/-! ## Data model: paragraphs (zeppelin notebook JSON) -/

/-- One Zeppelin paragraph as read from the JSON: the fields accessed by the
converter, each possibly absent. -/
structure Paragraph where
  text : Option Str
  title : Option Str
  dateUpdated : Option Str

/-! ## Static configuration tables (zeppelin_converter.py lines 11-22) -/

/-- `INTERPRETER_MAPPINGS` (lines 11-18), as an association list. -/
def INTERPRETER_MAPPINGS : List (Str × Str) :=
  [("%pyspark".toList, "%python".toList), ("%sh".toList, "%sh".toList),
   ("%spark".toList, "%scala".toList), ("%sql".toList, "%sql".toList),
   ("%md".toList, "%md".toList), ("%r".toList, "%r".toList),
   ("%spark.sql".toList, "%sql".toList), ("%spark.pyspark".toList, "%python".toList),
   ("%spark.ipyspark".toList, "%python".toList),
   ("%spark.r".toList, "%r".toList), ("%spark.ir".toList, "%r".toList),
   ("%spark.conf".toList, "%scala".toList),
   ("%python.ipython".toList, "%python".toList), ("%python".toList, "%python".toList),
   ("%r.ir".toList, "%r".toList), ("%r.r".toList, "%r".toList),
   ("%r.shiny".toList, "%r".toList), ("%file".toList, "%sh".toList),
   ("scala".toList, "%scala".toList), ("python".toList, "%python".toList),
   ("sql".toList, "%sql".toList)]

/-- `FILE_EXTENSIONS` (line 20). -/
def FILE_EXTENSIONS : List (Str × Str) :=
  [("%python".toList, ".py".toList), ("%scala".toList, ".scala".toList),
   ("%sql".toList, ".sql".toList), ("%r".toList, ".r".toList),
   ("%md".toList, ".md".toList), ("%sh".toList, ".sh".toList)]

/-- `COMMENT_STYLES` (line 21). -/
def COMMENT_STYLES : List (Str × Str) :=
  [("%python".toList, "#".toList), ("%r".toList, "#".toList),
   ("%sh".toList, "#".toList), ("%scala".toList, "//".toList),
   ("%md".toList, "//".toList), ("%sql".toList, "--".toList)]

/-! ## The Cell Converter (`convert_notebook`, lines 58-104) -/

/-- Line 65: `f"{comment} Databricks notebook source\n"`. -/
def headerLine (comment : Str) : Str := comment ++ (" Databricks notebook source\n".toList)

/-- Line 102: `f"{comment} COMMAND ----------\n\n"`. -/
def sepLine (comment : Str) : Str := comment ++ (" COMMAND ----------\n\n".toList)

/-- Line 71: `f"{comment} DBTITLE 1, {paragraph.get('title')}\n"`; an absent
title renders as Python `None`. -/
def titleLineOf (comment : Str) (p : Paragraph) : Str :=
  comment ++ ((" DBTITLE 1, ".toList) ++
    ((match p.title with
      | some t => t
      | none => "None".toList) ++ ("\n".toList)))

/-- Line 99: `f"{prefix} {line}\n"` with `prefix = f"{comment} MAGIC"`. -/
def bodyLine (comment l : Str) : Str :=
  comment ++ ((" MAGIC ".toList) ++ (l ++ ("\n".toList)))

/-- Line 95: `f"{prefix} {interpreter_type}\n{interpreter_comment}"` — one list
element holding the tag line together with the optional warning comment. -/
def tagLine (comment tag ic : Str) : Str :=
  comment ++ ((" MAGIC ".toList) ++ (tag ++ (("\n".toList) ++ ic)))

/-- Line 85: the "converted from ..." note emitted when a directive is mapped
to a different tag. -/
def convNote (comment style potential tgt : Str) : Str :=
  comment ++ ((" MAGIC ".toList) ++ (style ++ ((" NOTE: converted from ".toList) ++
    (potential ++ ((" interpreter from Zeppelin to ".toList) ++
    (tgt ++ (" for Databricks. Also note that inline interpreters are not supported in Databricks and will need to be converted manually.\n".toList)))))))

/-- Line 88: the "unrecognized ..." note for unknown directives. -/
def unrecNote (comment potential : Str) : Str :=
  comment ++ ((" MAGIC ".toList) ++ (comment ++ ((" NOTE: unrecognized ".toList) ++
    (potential ++ (" interpreter from Zeppelin. Also note that inline interpreters are not supported in Databricks and will need to be converted manually.\n".toList)))))

/-- Lines 73-90: inspect the first line of the cell for an interpreter
directive; returns the interpreter tag, the warning comment (possibly empty)
and the remaining cell body lines.  `COMMENT_STYLES[interpreter_type]` is total
here by `mapping_targets_have_style`. -/
def directiveStep (comment dl : Str) (lines : List Str) : Str × Str × List Str :=
  match lines with
  | [] => (dl, [], lines)
  | l0 :: restLines =>
    let fl := stripWS l0
    if fl.head? = some '%' then
      let potential := if fl.contains ' ' then fl.takeWhile (fun c => c ≠ ' ') else fl
      match List.lookup potential INTERPRETER_MAPPINGS with
      | some tgt =>
        if tgt ≠ potential then
          (tgt, convNote comment ((List.lookup tgt COMMENT_STYLES).getD []) potential tgt,
           restLines)
        else (tgt, [], restLines)
      | none => (potential, unrecNote comment potential, restLines)
    else (dl, [], lines)

/-- The list elements appended to `content_lines` for one paragraph
(lines 66-102): nothing for an empty cell, otherwise title line, tag element,
prefixed body lines and the cell separator. -/
def cellBlock (comment dl : Str) (p : Paragraph) : List Str :=
  let cell_text := stripWS (p.text.getD [])
  if cell_text = [] then []
  else
    let st := directiveStep comment dl (cell_text.splitOn '\n')
    titleLineOf comment p :: tagLine comment st.1 st.2.1 ::
      (st.2.2.map (bodyLine comment) ++ [sepLine comment])

/-- The interpreter tag counted in `interpreter_usage` for one paragraph
(line 93); `none` when the paragraph is dropped as empty. -/
def cellTag (comment dl : Str) (p : Paragraph) : Option Str :=
  let cell_text := stripWS (p.text.getD [])
  if cell_text = [] then none
  else some (directiveStep comment dl (cell_text.splitOn '\n')).1

/-- `convert_notebook` (lines 58-104).  Returns `none` exactly when the default
language is not a key of `COMMENT_STYLES` (Python raises `KeyError` on line 61).
The `Counter` of interpreter usage is modelled by the list of per-cell tags
(the counter is its tally). -/
def convert_notebook (notebook_json : List Paragraph) (default_language : Str) :
    Option (List Str × List Str) :=
  match List.lookup default_language COMMENT_STYLES with
  | none => none
  | some comment =>
    some (headerLine comment ::
            (notebook_json.map (cellBlock comment default_language)).flatten,
          notebook_json.filterMap (cellTag comment default_language))

/-! ## The Notebook Loader (`load_notebook_json`, lines 33-56) -/

/-- The `config` object of the document, as read by the loader. -/
structure RawConfig where
  defaultLang : Option Str

/-- The parsed JSON document fields that the loader reads. -/
structure RawDoc where
  paragraphs : Option (List Paragraph)
  name : Option Str
  config : Option RawConfig

/-- The dictionary returned by `load_notebook_json` (lines 51-56); the
timestamp is in microseconds. -/
structure Notebook where
  json : List Paragraph
  name : Str
  lang : Str
  last_updated : Option Int

/-- Gregorian leap year. -/
def isLeap (y : Nat) : Bool := (y % 4 == 0 && y % 100 != 0) || y % 400 == 0

def daysInMonth (y m : Nat) : Nat :=
  if m = 2 then (if isLeap y then 29 else 28)
  else if m = 4 ∨ m = 6 ∨ m = 9 ∨ m = 11 then 30
  else 31

/-- Days of the year strictly before month `m`. -/
def cumDays (y m : Nat) : Nat :=
  (List.range' 1 (m - 1)).foldl (fun a k => a + daysInMonth y k) 0

/-- Days from 0001-01-01 (day zero) in the proleptic Gregorian calendar. -/
def ordinalOf (y m d : Nat) : Nat :=
  365 * (y - 1) + (y - 1) / 4 - (y - 1) / 100 + (y - 1) / 400 + cumDays y m + (d - 1)

/-- Take up to `k` leading digits. -/
def takeDigits (k : Nat) (s : Str) : Str × Str :=
  let ds := (s.take k).takeWhile Char.isDigit
  (ds, s.drop ds.length)

def digitsToNat (ds : Str) : Nat := ds.foldl (fun a c => a * 10 + (c.toNat - 48)) 0

def expectChar (c : Char) (s : Str) : Option Str :=
  match s with
  | x :: r => if x = c then some r else none
  | [] => none

/-- A literal whitespace in a `strptime` format: CPython compiles it to the
regex `\s+`, so it matches a run of one or more whitespace characters. -/
def expectSpaces (s : Str) : Option Str :=
  match s with
  | x :: r => if isPySpace x then some (r.dropWhile isPySpace) else none
  | [] => none

/-- Model of `datetime.strptime(s, "%Y-%m-%d %H:%M:%S.%f")` (line 45) plus the
`datetime` constructor checks, as microseconds since 0001-01-01.  As in
CPython's `_strptime`, `%Y` matches exactly 4 digits, `%m %d %H %M %S` 1-2
digits, `%f` 1-6 digits (scaled to microseconds), and the format's literal
space matches a run of whitespace; out-of-range components (month 13,
February 30, hour 24, second 60, ...) fail, just as the Python call raises
`ValueError`. -/
def strptimeMicro (s : Str) : Option Int := do
  let (ys, r1) := takeDigits 4 s
  let y := digitsToNat ys
  let r2 ← expectChar '-' r1
  let (mos, r3) := takeDigits 2 r2
  let mo := digitsToNat mos
  let r4 ← expectChar '-' r3
  let (ds, r5) := takeDigits 2 r4
  let d := digitsToNat ds
  let r6 ← expectSpaces r5
  let (hs, r7) := takeDigits 2 r6
  let h := digitsToNat hs
  let r8 ← expectChar ':' r7
  let (mins, r9) := takeDigits 2 r8
  let mi := digitsToNat mins
  let r10 ← expectChar ':' r9
  let (ss, r11) := takeDigits 2 r10
  let sec := digitsToNat ss
  let r12 ← expectChar '.' r11
  let (fs, r13) := takeDigits 6 r12
  guard (ys.length = 4 ∧ mos ≠ [] ∧ ds ≠ [] ∧ hs ≠ [] ∧ mins ≠ [] ∧ ss ≠ [] ∧
    fs ≠ [] ∧ r13 = [])
  guard (1 ≤ y ∧ y ≤ 9999 ∧ 1 ≤ mo ∧ mo ≤ 12 ∧ 1 ≤ d ∧ d ≤ daysInMonth y mo ∧
    h ≤ 23 ∧ mi ≤ 59 ∧ sec ≤ 59)
  let micro := digitsToNat fs * 10 ^ (6 - fs.length)
  pure (Int.ofNat ((((ordinalOf y mo d * 24 + h) * 60 + mi) * 60 + sec) * 1000000 + micro))

/-- The body of the `latest_date` loop (lines 42-49): fold one paragraph into
the running latest parse, skipping absent, empty and unparseable values. -/
def latestStep (latest : Option Int) (p : Paragraph) : Option Int :=
  match p.dateUpdated with
  | some s =>
    if s ≠ [] then
      match strptimeMicro s with
      | some date =>
        match latest with
        | none => some date
        | some a => if date > a then some date else some a
      | none => latest
    else latest
  | none => latest

/-- The `latest_date` fold (lines 41-49). -/
def latestDate (ps : List Paragraph) : Option Int := ps.foldl latestStep none

/-- `load_notebook_json` (lines 33-56), applied to the already-parsed JSON
document.  (File-not-found and JSON-syntax errors are outside this model; the
missing-`paragraphs` check is line 37.  The inner quotes of the Python error
message are elided.) -/
def load_notebook_json (file_path : Str) (doc : RawDoc) : Except Str Notebook :=
  match doc.paragraphs with
  | none => Except.error (("Missing paragraphs field in ".toList) ++ file_path)
  | some ps =>
    Except.ok { json := ps
                name := (doc.name).getD []
                lang := (match doc.config with
                         | some c => c.defaultLang.getD []
                         | none => [])
                last_updated := latestDate ps }

/-! ## The File Processor (`process_single_file`, lines 255-329) -/

/-- Microseconds per day (`timedelta(days=1)`). -/
def usPerDay : Int := 86400000000

/-- Line 271. -/
def skippedEmptyMsg : Str := "Skipped (all paragraphs are empty)".toList

/-- Line 277: `f"Skipped (older than {skip_old_days} days)"`. -/
def skippedOldMsg (n : Int) : Str :=
  ("Skipped (older than ".toList) ++ ((toString n).toList) ++ (" days)".toList)

/-- `str(KeyError(key))`: Python renders the missing key in single quotes. -/
def keyErrorMsg (key : Str) : Str :=
  Char.ofNat 39 :: (key ++ [Char.ofNat 39])

/-- Lines 274-277: the age check, taken only when `skip_old_days` is truthy
and a latest-update timestamp exists. -/
def ageSkipCheck (skip_old_days : Option Int) (last_updated : Option Int)
    (now : Int) : Option Str :=
  match skip_old_days, last_updated with
  | some n, some lu =>
    if n ≠ 0 ∧ lu < now - n * usPerDay then some (skippedOldMsg n) else none
  | _, _ => none

/-- Lines 279-327: conversion followed by path generation and writing.
`writeRes` abstracts the I/O outcome: `.ok msg` stands for the success message
built on lines 324-326, `.error e` for the text of an exception raised there.
An unsupported default language raises `KeyError` inside `convert_notebook`. -/
def convertAndWrite (nb : Notebook) (dl : Str) (writeRes : Except Str Str) :
    Bool × Str × List Str :=
  match convert_notebook nb.json dl with
  | none => (false, keyErrorMsg dl, [])
  | some pr =>
    match writeRes with
    | Except.ok msg => (true, msg, pr.2)
    | Except.error e => (false, e, [])

/-- `process_single_file` (lines 255-329) on an already-loaded (or failed to
load) notebook; `now` is `datetime.now()` in microseconds.  Returns the
`(success, message, interpreter_stats)` triple. -/
def process_single_file (loadRes : Except Str Notebook) (dl : Str) (now : Int)
    (skip_old_days : Option Int) (writeRes : Except Str Str) :
    Bool × Str × List Str :=
  match loadRes with
  | Except.error e => (false, e, [])
  | Except.ok nb =>
    if !(nb.json.any (fun p => !(stripWS (p.text.getD [])).isEmpty)) then
      (false, skippedEmptyMsg, [])
    else
      match ageSkipCheck skip_old_days nb.last_updated now with
      | some msg => (false, msg, [])
      | none => convertAndWrite nb dl writeRes

/-! ## The Batch Driver (`process_files`, lines 331-349, and `main`, line 420) -/

/-- Python `sub in s` (substring containment). -/
def startsWith : Str → Str → Bool
  | [], _ => true
  | _ :: _, [] => false
  | a :: as, b :: bs => a == b && startsWith as bs

/-- Python `sub in s`. -/
def containsSub (sub : Str) : Str → Bool
  | [] => sub.isEmpty
  | c :: rest => startsWith sub (c :: rest) || containsSub sub rest

/-- The outcome of `process_single_file` for one input file. -/
structure FileOutcome where
  path : Str
  success : Bool
  message : Str
  stats : List Str

/-- `ProcessingResult` (lines 26-31); the interpreter `Counter` is modelled by
the list of counted tags. -/
structure ProcessingResult where
  successful_files : List Str
  failed_files : List (Str × Str)
  skipped_files : List Str
  interpreter_stats : List Str

/-- `process_files` (lines 331-349), applied to the per-file outcomes of
`process_single_file`: a success is recorded successful; a failure whose
message contains the substring `"Skipped"` is recorded skipped; any other
failure is recorded failed, with its message. -/
def process_files : List FileOutcome → ProcessingResult
  | [] => ⟨[], [], [], []⟩
  | e :: rest =>
    let r := process_files rest
    if e.success then
      { r with successful_files := e.path :: r.successful_files,
               interpreter_stats := e.stats ++ r.interpreter_stats }
    else if containsSub ("Skipped".toList) e.message then
      { r with skipped_files := e.path :: r.skipped_files }
    else
      { r with failed_files := (e.path, e.message) :: r.failed_files }

/-- `sys.exit(1 if result.failed_files else 0)` (line 420). -/
def mainExitCode (r : ProcessingResult) : Nat :=
  if r.failed_files.isEmpty then 0 else 1

/-- An outcome recorded in the failed list. -/
def isFail (e : FileOutcome) : Bool :=
  !e.success && !containsSub ("Skipped".toList) e.message

/-- An outcome recorded in the skipped list. -/
def isSkip (e : FileOutcome) : Bool :=
  !e.success && containsSub ("Skipped".toList) e.message

/-! ## The Conflict Resolver (`resolve_filename_conflicts`, lines 117-181) -/

/-- What the filesystem holds at a path: a regular file, a directory, or
something else (FIFO, socket, ...). -/
inductive PathKind
  | file
  | dir
  | other
deriving DecidableEq

/-- A filesystem snapshot at call time. -/
def FS : Type := Str → Option PathKind

/-- `os.path.exists`. -/
def pathExists (fs : FS) (p : Str) : Bool := (fs p).isSome

/-- `os.path.isdir`. -/
def isDir (fs : FS) (p : Str) : Bool :=
  match fs p with
  | some PathKind.dir => true
  | _ => false

/-- `os.path.isfile`. -/
def isFile (fs : FS) (p : Str) : Bool :=
  match fs p with
  | some PathKind.file => true
  | _ => false

/-- `os.path.basename`: the part after the last slash. -/
def basenameOf (p : Str) : Str := (p.reverse.takeWhile (fun c => c ≠ '/')).reverse

/-- `os.path.dirname`: the part before the last slash (modelled without the
root-slash special case; the resolver only re-joins it with `joinPath`). -/
def dirnameOf (p : Str) : Str :=
  ((p.reverse.dropWhile (fun c => c ≠ '/')).drop 1).reverse

/-- `os.path.join` as used by the resolver. -/
def joinPath (d f : Str) : Str := if d = [] then f else d ++ '/' :: f

/-- `os.path.splitext`: split a file name at its last dot, unless every
character before that dot is itself a dot. -/
def splitExt (f : Str) : Str × Str :=
  match f.reverse.dropWhile (fun c => c ≠ '.') with
  | [] => (f, [])
  | _ :: base =>
    if base.reverse.all (fun c => c = '.') then (f, [])
    else (base.reverse, '.' :: (f.reverse.takeWhile (fun c => c ≠ '.')).reverse)

/-- `f"{counter:03d}"`. -/
def pad3 (n : Nat) : Str :=
  (if n < 10 then "00".toList else if n < 100 then "0".toList else []) ++
    (toString n).toList

/-- The numeric-suffix candidate `f"{name}_{counter:03d}{ext}"` joined to the
directory. -/
def counterPath (directory nm ext : Str) (k : Nat) : Str :=
  joinPath directory (nm ++ ('_' :: pad3 k) ++ ext)

/-- The timestamp-suffixed fallback `f"{name}_{timestamp}{ext}"` used by both
branches (lines 153-158 and 174-179); `nowStamp` is
`datetime.now().strftime("%Y%m%d_%H%M%S")`. -/
def tsFallbackPath (nowStamp p : Str) : Str :=
  joinPath (dirnameOf p)
    ((splitExt (basenameOf p)).1 ++ ('_' :: nowStamp) ++ (splitExt (basenameOf p)).2)

/-- `resolve_filename_conflicts` (lines 117-181).  The filesystem is probed
through `fs`; the `while counter <= 999` loops are the search over
`[1, ..., 999]` for the first free numeric suffix. -/
def resolve_filename_conflicts (fs : FS) (nowStamp : Str) (output_path : Str) : Str :=
  if pathExists fs output_path = false then output_path
  else if isDir fs output_path then
    let directory := dirnameOf output_path
    let nm := (splitExt (basenameOf output_path)).1
    let ext := (splitExt (basenameOf output_path)).2
    let p1 := joinPath directory (nm ++ ("_notebook".toList) ++ ext)
    if pathExists fs p1 = false then p1
    else
      let p2 := joinPath directory (nm ++ ("_file".toList) ++ ext)
      if pathExists fs p2 = false then p2
      else
        match (List.range' 1 999).find?
            (fun k => !pathExists fs (counterPath directory nm ext k)) with
        | some k => counterPath directory nm ext k
        | none => tsFallbackPath nowStamp output_path
  else if isFile fs output_path then
    let directory := dirnameOf output_path
    let nm := (splitExt (basenameOf output_path)).1
    let ext := (splitExt (basenameOf output_path)).2
    match (List.range' 1 999).find?
        (fun k => !pathExists fs (counterPath directory nm ext k)) with
    | some k => counterPath directory nm ext k
    | none => tsFallbackPath nowStamp output_path
  else output_path

/-! ## The directory-copy utility (`copy_with_rename`, copy_dir.py lines 5-40) -/

/-- One directory visited by `os.walk(src_dir)`: its path relative to the walk
root as components (empty for the root itself), and the file names it holds. -/
structure WalkDir where
  rel : List Str
  files : List Str

/-- Join a chain of components onto a root path. -/
def joinAll (root : Str) (comps : List Str) : Str := comps.foldl joinPath root

/-- `os.path.basename(root)` (copy_dir.py line 16): the last relative
component, or the basename of the walk root itself at the top level. -/
def parentNameOf (src : Str) (rel : List Str) : Str :=
  match rel.getLast? with
  | some x => x
  | none => basenameOf src

/-- Lines 17 and 25-29: a file whose stem equals its parent directory name
becomes `<stem>_file<ext>`; all other files keep their name. -/
def destName (parent f : Str) : Str :=
  if (splitExt f).1 = parent then (splitExt f).1 ++ ("_file".toList) ++ (splitExt f).2
  else f

/-- The inner `for file in files` loop (lines 13-40); `cp` models
`shutil.copy2` (`.ok ()` a successful copy, `.error e` a raised exception).
Returns the copies performed in order; the first error propagates when
`skip_errors` is false. -/
def copyFilesIn (cp : Str → Str → Except Str Unit) (skip_errors : Bool)
    (rootP targetP parent : Str) : List Str → Except Str (List (Str × Str))
  | [] => Except.ok []
  | f :: rest =>
    match cp (joinPath rootP f) (joinPath targetP (destName parent f)) with
    | Except.ok _ =>
      match copyFilesIn cp skip_errors rootP targetP parent rest with
      | Except.ok ps =>
        Except.ok ((joinPath rootP f, joinPath targetP (destName parent f)) :: ps)
      | Except.error e => Except.error e
    | Except.error e =>
      if skip_errors then copyFilesIn cp skip_errors rootP targetP parent rest
      else Except.error e

/-- `copy_with_rename` (copy_dir.py lines 5-40), over the directory sequence
produced by `os.walk(src_dir)`. -/
def copy_with_rename (cp : Str → Str → Except Str Unit) (src_dir dest_dir : Str)
    (walk : List WalkDir) (skip_errors : Bool) : Except Str (List (Str × Str)) :=
  match walk with
  | [] => Except.ok []
  | d :: rest =>
    match copyFilesIn cp skip_errors (joinAll src_dir d.rel) (joinAll dest_dir d.rel)
        (parentNameOf src_dir d.rel) d.files with
    | Except.ok ps =>
      match copy_with_rename cp src_dir dest_dir rest skip_errors with
      | Except.ok qs => Except.ok (ps ++ qs)
      | Except.error e => Except.error e
    | Except.error e => Except.error e

/-- The copy plan the spec prescribes: every file of the tree, structure
preserved under the destination root, stems matching the parent directory
renamed via `destName`. -/
def plannedPairs (src_dir dest_dir : Str) (walk : List WalkDir) : List (Str × Str) :=
  walk.flatMap (fun d => d.files.map (fun f =>
    (joinPath (joinAll src_dir d.rel) f,
     joinPath (joinAll dest_dir d.rel) (destName (parentNameOf src_dir d.rel) f))))

/-- Whether `shutil.copy2` succeeds on a planned pair. -/
def cpOk (cp : Str → Str → Except Str Unit) (pr : Str × Str) : Bool :=
  match cp pr.1 pr.2 with
  | Except.ok _ => true
  | Except.error _ => false

/-- The first copy error over a pair list, in order. -/
def firstCopyError (cp : Str → Str → Except Str Unit)
    (prs : List (Str × Str)) : Option Str :=
  (prs.filterMap (fun pr => match cp pr.1 pr.2 with
    | Except.ok _ => none
    | Except.error e => some e)).head?

/-- The per-file pairs of one walk directory. -/
def dirPairs (src_dir dest_dir : Str) (d : WalkDir) : List (Str × Str) :=
  d.files.map (fun f =>
    (joinPath (joinAll src_dir d.rel) f,
     joinPath (joinAll dest_dir d.rel) (destName (parentNameOf src_dir d.rel) f)))

/-! # Theorems -/

/-! ### Basic lemmas about the string primitives -/

theorem length_dropWhile_le (p : Char → Bool) (l : Str) :
    (l.dropWhile p).length ≤ l.length :=
  (List.dropWhile_sublist p).length_le

theorem map_fix {f : Char → Char} : ∀ {l : Str}, (∀ c ∈ l, f c = c) → l.map f = l
  | [], _ => rfl
  | c :: rest, h => by
    simp only [List.map_cons, h c (List.mem_cons_self c rest),
      map_fix (fun d hd => h d (List.mem_cons_of_mem c hd))]

theorem pySplitF_congr : ∀ (f₁ f₂ : Nat) (s : Str), s.length ≤ f₁ → s.length ≤ f₂ →
    pySplitF f₁ s = pySplitF f₂ s := by
  intro f₁
  induction f₁ with
  | zero =>
    intro f₂ s h1 _
    have : s = [] := List.length_eq_zero.mp (Nat.le_zero.mp h1)
    subst this
    cases f₂ <;> rfl
  | succ f ih =>
    intro f₂ s h1 h2
    cases s with
    | nil => cases f₂ <;> rfl
    | cons c rest =>
      cases f₂ with
      | zero => exact absurd h2 (by simp)
      | succ g =>
        simp only [pySplitF]
        cases hc : isPySpace c with
        | true =>
          simp only [if_true]
          exact ih g rest (Nat.le_of_succ_le_succ h1) (Nat.le_of_succ_le_succ h2)
        | false =>
          simp only [Bool.false_eq_true, if_false]
          have hl : (rest.dropWhile notSpace).length ≤ rest.length :=
            length_dropWhile_le _ _
          rw [ih g (rest.dropWhile notSpace)
            (le_trans hl (Nat.le_of_succ_le_succ h1))
            (le_trans hl (Nat.le_of_succ_le_succ h2))]

theorem pySplit_cons_space {c : Char} {rest : Str} (h : isPySpace c = true) :
    pySplit (c :: rest) = pySplit rest := by
  simp only [pySplit, List.length_cons, pySplitF, h, if_true]

theorem pySplit_cons_word {c : Char} {rest : Str} (h : isPySpace c = false) :
    pySplit (c :: rest) =
      (c :: rest.takeWhile notSpace) :: pySplit (rest.dropWhile notSpace) := by
  simp only [pySplit, List.length_cons, pySplitF, h, Bool.false_eq_true, if_false,
    List.cons.injEq, true_and]
  exact pySplitF_congr _ _ _ (length_dropWhile_le _ _) le_rfl

theorem pySplit_nil_eq : pySplit [] = [] := rfl

theorem spJoin_nil : spJoin [] = [] := rfl

theorem spJoin_single (w : Str) : spJoin [w] = w := by
  simp [spJoin, List.intercalate]

theorem spJoin_cons₂ (a b : Str) (l : List Str) :
    spJoin (a :: b :: l) = a ++ ' ' :: spJoin (b :: l) := by
  simp [spJoin, List.intercalate, List.intersperse]

theorem head_dropWhile_false (p : Char → Bool) : ∀ (l : Str) {c : Char} {r : Str},
    l.dropWhile p = c :: r → p c = false := by
  intro l
  induction l with
  | nil => intro c r h; simp [List.dropWhile] at h
  | cons a l2 ih =>
    intro c r h
    rw [List.dropWhile_cons] at h
    by_cases ha : p a = true
    · rw [if_pos ha] at h; exact ih h
    · rw [if_neg ha] at h
      cases h
      exact Bool.not_eq_true _ ▸ ha

/-- Every word produced by `str.split()` is nonempty and consists of
non-whitespace characters of the input. -/
theorem pySplit_sound : ∀ (n : Nat) (s : Str), s.length ≤ n → ∀ w ∈ pySplit s,
    w ≠ [] ∧ ∀ c ∈ w, isPySpace c = false ∧ c ∈ s := by
  intro n
  induction n with
  | zero =>
    intro s hs w hw
    have : s = [] := List.length_eq_zero.mp (Nat.le_zero.mp hs)
    subst this
    simp [pySplit, pySplitF] at hw
  | succ n ih =>
    intro s hs w hw
    cases s with
    | nil => simp [pySplit, pySplitF] at hw
    | cons c rest =>
      cases hc : isPySpace c with
      | true =>
        rw [pySplit_cons_space hc] at hw
        obtain ⟨h1, h2⟩ := ih rest (Nat.le_of_succ_le_succ hs) w hw
        exact ⟨h1, fun d hd => ⟨(h2 d hd).1, List.mem_cons_of_mem c (h2 d hd).2⟩⟩
      | false =>
        rw [pySplit_cons_word hc] at hw
        rcases List.mem_cons.mp hw with rfl | hw2
        · refine ⟨List.cons_ne_nil _ _, fun d hd => ?_⟩
          rcases List.mem_cons.mp hd with rfl | hd2
          · exact ⟨hc, List.mem_cons_self _ _⟩
          · have hns : notSpace d = true := List.mem_takeWhile_imp hd2
            have hdr : d ∈ rest := (List.takeWhile_sublist notSpace).subset hd2
            refine ⟨?_, List.mem_cons_of_mem c hdr⟩
            simpa [notSpace] using hns
        · have hlen : (rest.dropWhile notSpace).length ≤ n :=
            le_trans (length_dropWhile_le _ _) (Nat.le_of_succ_le_succ hs)
          obtain ⟨h1, h2⟩ := ih _ hlen w hw2
          refine ⟨h1, fun d hd => ⟨(h2 d hd).1, ?_⟩⟩
          exact List.mem_cons_of_mem c ((List.dropWhile_sublist notSpace).subset (h2 d hd).2)

/-- Every character of `' '.join(parts)` is a space or a character of a part. -/
theorem mem_spJoin : ∀ (parts : List Str) (c : Char), c ∈ spJoin parts →
    c = ' ' ∨ ∃ w ∈ parts, c ∈ w := by
  intro parts
  induction parts with
  | nil => intro c hc; rw [spJoin_nil] at hc; simp at hc
  | cons a l ih =>
    cases l with
    | nil =>
      intro c hc
      rw [spJoin_single] at hc
      exact Or.inr ⟨a, List.mem_cons_self _ _, hc⟩
    | cons b l2 =>
      intro c hc
      rw [spJoin_cons₂] at hc
      rcases List.mem_append.mp hc with h | h
      · exact Or.inr ⟨a, List.mem_cons_self _ _, h⟩
      · rcases List.mem_cons.mp h with rfl | h2
        · exact Or.inl rfl
        · rcases ih c h2 with h3 | ⟨w, hw, hcw⟩
          · exact Or.inl h3
          · exact Or.inr ⟨w, List.mem_cons_of_mem _ hw, hcw⟩

/-- `' '.join(s.split())` never lengthens a string. -/
theorem spJoin_pySplit_length : ∀ (n : Nat) (s : Str), s.length ≤ n →
    (spJoin (pySplit s)).length ≤ s.length := by
  intro n
  induction n with
  | zero =>
    intro s hs
    have : s = [] := List.length_eq_zero.mp (Nat.le_zero.mp hs)
    subst this
    simp [pySplit, pySplitF, spJoin_nil]
  | succ n ih =>
    intro s hs
    cases s with
    | nil => simp [pySplit, pySplitF, spJoin_nil]
    | cons c rest =>
      cases hc : isPySpace c with
      | true =>
        rw [pySplit_cons_space hc]
        have := ih rest (Nat.le_of_succ_le_succ hs)
        simp only [List.length_cons]
        omega
      | false =>
        rw [pySplit_cons_word hc]
        have htw : (rest.takeWhile notSpace).length ≤ rest.length :=
          (List.takeWhile_sublist notSpace).length_le
        have hsplit : rest.takeWhile notSpace ++ rest.dropWhile notSpace = rest :=
          List.takeWhile_append_dropWhile notSpace rest
        cases hr : rest.dropWhile notSpace with
        | nil =>
          rw [pySplit_nil_eq, spJoin_single]
          simp only [List.length_cons]
          omega
        | cons d r2 =>
          have hd : isPySpace d = true := by
            have := head_dropWhile_false notSpace rest hr
            simpa [notSpace] using this
          rw [pySplit_cons_space hd]
          have hlenrest : rest.length = (rest.takeWhile notSpace).length + 1 + r2.length := by
            conv_lhs => rw [← hsplit]
            rw [hr]
            simp [List.length_append]
            omega
          have hr2 : r2.length ≤ n := by
            have := Nat.le_of_succ_le_succ hs
            simp only [List.length_cons] at this ⊢
            omega
          have hih := ih r2 hr2
          cases hps : pySplit r2 with
          | nil =>
            rw [spJoin_single]
            simp only [List.length_cons]
            omega
          | cons w1 ws =>
            rw [spJoin_cons₂]
            rw [hps] at hih
            simp only [List.length_append, List.length_cons] at hih ⊢
            omega

/-! ### Lemmas about two-sided stripping -/

theorem pyStripBy_append (p : Char → Bool) (s : Str) :
    s.dropWhile p = pyStripBy p s ++ ((s.dropWhile p).reverse.takeWhile p).reverse := by
  rw [pyStripBy, ← List.reverse_append,
    List.takeWhile_append_dropWhile p (s.dropWhile p).reverse, List.reverse_reverse]

theorem mem_of_mem_pyStripBy {p : Char → Bool} {s : Str} {c : Char}
    (h : c ∈ pyStripBy p s) : c ∈ s := by
  have h2 : c ∈ s.dropWhile p := by
    rw [pyStripBy_append p s]
    exact List.mem_append_left _ h
  exact (List.dropWhile_sublist p).subset h2

theorem length_pyStripBy_le (p : Char → Bool) (s : Str) :
    (pyStripBy p s).length ≤ s.length := by
  have h1 : (pyStripBy p s).length ≤ (s.dropWhile p).length := by
    rw [pyStripBy_append p s]
    simp [List.length_append]
  exact le_trans h1 (length_dropWhile_le p s)

theorem pyStripBy_head {p : Char → Bool} {s : Str} {c : Char} {r : Str}
    (h : pyStripBy p s = c :: r) : p c = false := by
  have hj := pyStripBy_append p s
  rw [h] at hj
  exact head_dropWhile_false p s hj

theorem exists_cons_of_head? {l : Str} {c : Char} (h : l.head? = some c) :
    ∃ r, l = c :: r := by
  cases l with
  | nil => simp at h
  | cons a r =>
    simp only [List.head?_cons, Option.some.injEq] at h
    exact ⟨r, by rw [h]⟩

theorem pyStripBy_last {p : Char → Bool} {s : Str} {c : Char}
    (h : (pyStripBy p s).getLast? = some c) : p c = false := by
  rw [pyStripBy, List.getLast?_reverse] at h
  obtain ⟨r, hr⟩ := exists_cons_of_head? h
  exact head_dropWhile_false p _ hr

theorem dropWhile_eq_self_of_head (p : Char → Bool) (l : Str)
    (h : ∀ c r, l = c :: r → p c = false) : l.dropWhile p = l := by
  cases l with
  | nil => rfl
  | cons c r =>
    rw [List.dropWhile_cons, if_neg]
    simp [h c r rfl]

theorem pyStripBy_idem (p : Char → Bool) (s : Str) :
    pyStripBy p (pyStripBy p s) = pyStripBy p s := by
  have h1 : (pyStripBy p s).dropWhile p = pyStripBy p s := by
    apply dropWhile_eq_self_of_head
    intro c r hc
    exact pyStripBy_head hc
  have h2 : (pyStripBy p s).reverse.dropWhile p = (pyStripBy p s).reverse := by
    apply dropWhile_eq_self_of_head
    intro c r hc
    apply pyStripBy_last (s := s)
    rw [← List.head?_reverse, hc]
    rfl
  rw [pyStripBy, h1, h2, List.reverse_reverse]

/-- On a string whose only whitespace characters are single internal `' '`
separators, `' '.join(s.split())` is the identity. -/
theorem spJoin_pySplit_of_normal : ∀ (n : Nat) (t : Str), t.length ≤ n →
    (∀ c ∈ t, isPySpace c = true → c = ' ') →
    t.head? ≠ some ' ' →
    t.getLast? ≠ some ' ' →
    List.Chain' NoTwoSp t →
    spJoin (pySplit t) = t := by
  intro n
  induction n with
  | zero =>
    intro t ht _ _ _ _
    have : t = [] := List.length_eq_zero.mp (Nat.le_zero.mp ht)
    subst this
    rfl
  | succ n ih =>
    intro t ht h1 h2 h3 h4
    cases t with
    | nil => rfl
    | cons c rest =>
      have hc : isPySpace c = false := by
        cases hcs : isPySpace c with
        | true =>
          exact absurd (by simp [h1 c (List.mem_cons_self c rest) hcs]) h2
        | false => rfl
      rw [pySplit_cons_word hc]
      have hsplit : rest.takeWhile notSpace ++ rest.dropWhile notSpace = rest :=
        List.takeWhile_append_dropWhile notSpace rest
      cases hr : rest.dropWhile notSpace with
      | nil =>
        rw [pySplit_nil_eq, spJoin_single]
        rw [hr, List.append_nil] at hsplit
        rw [hsplit]
      | cons d r2 =>
        have hd : isPySpace d = true := by
          have := head_dropWhile_false notSpace rest hr
          simpa [notSpace] using this
        have hdmem : d ∈ c :: rest := by
          refine List.mem_cons_of_mem c ?_
          rw [← hsplit, hr]
          exact List.mem_append_right _ (List.mem_cons_self _ _)
        have hdsp : d = ' ' := h1 d hdmem hd
        subst hdsp
        -- t = (c :: takeWhile) ++ ' ' :: r2
        have hrest : rest = rest.takeWhile notSpace ++ ' ' :: r2 := by
          conv_lhs => rw [← hsplit, hr]
        have hteq : c :: rest = (c :: rest.takeWhile notSpace) ++ ' ' :: r2 := by
          rw [List.cons_append, ← hrest]
        have hr2ne : r2 ≠ [] := by
          intro hnil
          apply h3
          rw [hteq, hnil]
          exact List.getLast?_concat _
        obtain ⟨e, r3, rfl⟩ := List.exists_cons_of_ne_nil hr2ne
        have hchain : List.Chain' NoTwoSp
            (((c :: rest.takeWhile notSpace) ++ [' ']) ++ e :: r3) := by
          have h5 := h4
          rw [hteq] at h5
          simpa using h5
        obtain ⟨_, hch2, hbd⟩ := List.chain'_append.mp hchain
        have hhead : (e :: r3).head? ≠ some ' ' := by
          intro he
          have he2 : e = ' ' := by simpa using he
          exact hbd ' ' (by rw [show (c :: List.takeWhile notSpace rest ++ [' ']).getLast? =
            some ' ' from List.getLast?_concat _]; rfl) e (by simp) ⟨rfl, he2⟩
        have hlast : (e :: r3).getLast? ≠ some ' ' := by
          intro hl
          apply h3
          rw [hteq, List.getLast?_append_of_ne_nil _ (List.cons_ne_nil _ _),
            List.getLast?_cons_cons]
          exact hl
        have hmem : ∀ x ∈ e :: r3, isPySpace x = true → x = ' ' := by
          intro x hx hxs
          apply h1 x _ hxs
          rw [hteq]
          exact List.mem_append_right _ (List.mem_cons_of_mem _ hx)
        have hlen : (e :: r3).length ≤ n := by
          have h6 := ht
          rw [hteq] at h6
          simp only [List.length_append, List.length_cons] at h6 ⊢
          omega
        have hihr := ih (e :: r3) hlen hmem hhead hlast hch2
        rw [pySplit_cons_space (by decide)]
        cases hps : pySplit (e :: r3) with
        | nil =>
          exfalso
          rw [hps, spJoin_nil] at hihr
          exact List.cons_ne_nil _ _ hihr.symm
        | cons w1 ws =>
          rw [spJoin_cons₂, ← hps, hihr]
          exact hteq.symm

theorem map_ext {f g : Char → Char} : ∀ {l : Str}, (∀ c ∈ l, f c = g c) →
    l.map f = l.map g
  | [], _ => rfl
  | c :: r, h => by
    simp only [List.map_cons, h c (List.mem_cons_self c r),
      map_ext (fun d hd => h d (List.mem_cons_of_mem c hd))]

theorem foldl_replaceAll_eq_map : ∀ (ps : List Char) (s : Str),
    ps.foldl (fun acc ch => replaceAll ch '_' acc) s = s.map (replChain ps) := by
  intro ps
  induction ps with
  | nil =>
    intro s
    simp only [List.foldl_nil]
    exact (map_fix (fun c _ => rfl)).symm
  | cons a as ih =>
    intro s
    simp only [List.foldl_cons]
    rw [ih, replaceAll, List.map_map]
    exact map_ext (fun c _ => rfl)

theorem replChain_eq : ∀ (ps : List Char), '_' ∉ ps → ∀ c,
    replChain ps c = if c ∈ ps then '_' else c := by
  intro ps
  induction ps with
  | nil => intro _ c; simp [replChain]
  | cons a as ih =>
    intro hps c
    have has : '_' ∉ as := fun h => hps (List.mem_cons_of_mem a h)
    simp only [replChain]
    by_cases hca : c = a
    · subst hca
      rw [if_pos rfl, ih has, ite_self, if_pos (List.mem_cons_self _ _)]
    · rw [if_neg hca, ih has]
      by_cases hcas : c ∈ as
      · rw [if_pos hcas, if_pos (List.mem_cons_of_mem a hcas)]
      · rw [if_neg hcas, if_neg (by simp [List.mem_cons, hca, hcas])]

/-- Lines 244-249 of the source amount to mapping `sanitizeChar` over the string. -/
theorem sanitize_core_eq_map (s : Str) :
    removeControl (replaceProblematic s) = s.map sanitizeChar := by
  simp only [replaceProblematic, removeControl]
  rw [foldl_replaceAll_eq_map, List.map_map]
  apply map_ext
  intro c _
  simp only [Function.comp]
  rw [replChain_eq problematic_chars (by decide) c]
  by_cases hp : c ∈ problematic_chars
  · rw [if_pos hp]
    have h1 : 32 ≤ '_'.toNat ∧ '_' ∉ problematic_chars := by decide
    rw [if_pos h1, sanitizeChar, if_pos (Or.inl hp)]
  · rw [if_neg hp, sanitizeChar]
    by_cases h32 : 32 ≤ c.toNat
    · rw [if_pos ⟨h32, hp⟩, if_neg]
      rintro (h | h)
      · exact hp h
      · omega
    · rw [if_neg (fun h => h32 h.1), if_pos (Or.inr (by omega))]

theorem sanitizeChar_idem (c : Char) : sanitizeChar (sanitizeChar c) = sanitizeChar c := by
  by_cases h : c ∈ problematic_chars ∨ c.toNat < 32
  · have h1 : sanitizeChar c = '_' := by rw [sanitizeChar, if_pos h]
    rw [h1]
    decide
  · have h1 : sanitizeChar c = c := by rw [sanitizeChar, if_neg h]
    rw [h1]
    exact h1

theorem sanitizeChar_mem_image {s : Str} {c : Char} (h : c ∈ s.map sanitizeChar) :
    c ∉ problematic_chars ∧ 32 ≤ c.toNat := by
  obtain ⟨c0, _, rfl⟩ := List.mem_map.mp h
  by_cases hc : c0 ∈ problematic_chars ∨ c0.toNat < 32
  · rw [sanitizeChar, if_pos hc]
    exact ⟨by decide, by decide⟩
  · rw [sanitizeChar, if_neg hc]
    push_neg at hc
    exact ⟨hc.1, by omega⟩

theorem sanitizeChar_fix_image {s : Str} {c : Char} (h : c ∈ s.map sanitizeChar) :
    sanitizeChar c = c := by
  obtain ⟨c0, _, rfl⟩ := List.mem_map.mp h
  exact sanitizeChar_idem c0

/-! ### Helper fixed-point lemmas -/

theorem takeWhile_all (p : Char → Bool) : ∀ (l : Str), (∀ c ∈ l, p c = true) →
    l.takeWhile p = l
  | [], _ => rfl
  | c :: r, h => by
    rw [List.takeWhile_cons, if_pos (h c (List.mem_cons_self c r))]
    rw [takeWhile_all p r (fun d hd => h d (List.mem_cons_of_mem c hd))]

theorem dropWhile_all (p : Char → Bool) : ∀ (l : Str), (∀ c ∈ l, p c = true) →
    l.dropWhile p = []
  | [], _ => rfl
  | c :: r, h => by
    rw [List.dropWhile_cons, if_pos (h c (List.mem_cons_self c r))]
    exact dropWhile_all p r (fun d hd => h d (List.mem_cons_of_mem c hd))

theorem dropWhile_eq_self_of_all {p : Char → Bool} {l : Str}
    (h : ∀ c ∈ l, p c = false) : l.dropWhile p = l := by
  cases l with
  | nil => rfl
  | cons c r =>
    rw [List.dropWhile_cons, if_neg]
    simp [h c (List.mem_cons_self c r)]

theorem pyStripBy_eq_self {p : Char → Bool} {s : Str} (h : ∀ c ∈ s, p c = false) :
    pyStripBy p s = s := by
  rw [pyStripBy, dropWhile_eq_self_of_all h,
    dropWhile_eq_self_of_all (fun c hc => h c (by simpa using hc)), List.reverse_reverse]

theorem pySplit_no_space {s : Str} (hne : s ≠ []) (h : ∀ c ∈ s, isPySpace c = false) :
    pySplit s = [s] := by
  obtain ⟨c, rest, rfl⟩ := List.exists_cons_of_ne_nil hne
  rw [pySplit_cons_word (h c (List.mem_cons_self _ _))]
  have htw : rest.takeWhile notSpace = rest :=
    takeWhile_all notSpace rest (fun d hd => by
      simp [notSpace, h d (List.mem_cons_of_mem c hd)])
  have hdw : rest.dropWhile notSpace = [] :=
    dropWhile_all notSpace rest (fun d hd => by
      simp [notSpace, h d (List.mem_cons_of_mem c hd)])
  rw [htw, hdw, pySplit_nil_eq]

/-- If a nonempty string has no problematic characters, no control characters,
no whitespace and no dots, the sanitizer returns it unchanged. -/
theorem sanitize_plain_fixed (s : Str) (hne : s ≠ [])
    (h : ∀ c ∈ s, sanitizeChar c = c ∧ isPySpace c = false ∧ isDotSpace c = false) :
    sanitize_path_component s = s := by
  rw [sanitize_path_component, if_neg hne, sanitize_core_eq_map,
    map_fix (fun c hc => (h c hc).1)]
  rw [normalizeWS, pySplit_no_space hne (fun c hc => (h c hc).2.1), spJoin_single]
  exact pyStripBy_eq_self (fun c hc => (h c hc).2.2)

/-! ### No-two-adjacent-spaces invariants -/

theorem mem_of_getLast?_eq {l : Str} {c : Char} (h : l.getLast? = some c) : c ∈ l := by
  rw [← List.head?_reverse] at h
  obtain ⟨r, hr⟩ := exists_cons_of_head? h
  have h2 : c ∈ l.reverse := by rw [hr]; exact List.mem_cons_self _ _
  simpa using h2

theorem chain_of_no_space {l : Str} (h : ∀ c ∈ l, c ≠ ' ') :
    List.Chain' NoTwoSp l := by
  induction l with
  | nil => exact List.chain'_nil
  | cons a r ih =>
    cases r with
    | nil => exact List.chain'_singleton _
    | cons b r2 =>
      rw [List.chain'_cons]
      exact ⟨fun hab => h a (List.mem_cons_self _ _) hab.1,
        ih (fun c hc => h c (List.mem_cons_of_mem a hc))⟩

theorem head?_spJoin_cons {w : Str} {l : List Str} (hw : w ≠ []) :
    (spJoin (w :: l)).head? = w.head? := by
  obtain ⟨c0, r0, rfl⟩ := List.exists_cons_of_ne_nil hw
  cases l with
  | nil => rw [spJoin_single]
  | cons b l2 => rw [spJoin_cons₂]; rfl

theorem chain_spJoin : ∀ (parts : List Str),
    (∀ w ∈ parts, w ≠ [] ∧ ∀ c ∈ w, c ≠ ' ') →
    List.Chain' NoTwoSp (spJoin parts) := by
  intro parts
  induction parts with
  | nil => intro _; rw [spJoin_nil]; exact List.chain'_nil
  | cons a l ih =>
    intro h
    have ha := h a (List.mem_cons_self _ _)
    cases l with
    | nil =>
      rw [spJoin_single]
      exact chain_of_no_space ha.2
    | cons b l2 =>
      rw [spJoin_cons₂]
      apply List.chain'_append.mpr
      refine ⟨chain_of_no_space ha.2, ?_, ?_⟩
      · apply List.chain'_cons'.mpr
        refine ⟨?_, ih (fun w hw => h w (List.mem_cons_of_mem a hw))⟩
        intro y hy
        have hb := h b (List.mem_cons_of_mem a (List.mem_cons_self _ _))
        rw [head?_spJoin_cons hb.1] at hy
        obtain ⟨r, hr⟩ := exists_cons_of_head? hy
        have hyb : y ∈ b := by rw [hr]; exact List.mem_cons_self _ _
        exact fun hc => hb.2 y hyb hc.2
      · intro x hx y hy
        have hy2 : y = ' ' := by
          have := hy
          simp at this
          exact this.symm
        subst hy2
        have hxa : x ∈ a := mem_of_getLast?_eq hx
        exact fun hc => ha.2 x hxa hc.1

theorem chain_dropWhile {p : Char → Bool} : ∀ {l : Str}, List.Chain' NoTwoSp l →
    List.Chain' NoTwoSp (l.dropWhile p) := by
  intro l
  induction l with
  | nil => intro _; exact List.chain'_nil
  | cons a r ih =>
    intro h
    rw [List.dropWhile_cons]
    by_cases ha : p a = true
    · rw [if_pos ha]
      exact ih (List.chain'_cons'.mp h).2
    · rw [if_neg ha]
      exact h

theorem noTwoSp_flip {a b : Char} (h : NoTwoSp a b) : NoTwoSp b a :=
  fun hc => h ⟨hc.2, hc.1⟩

theorem chain_pyStripBy {p : Char → Bool} {l : Str} (h : List.Chain' NoTwoSp l) :
    List.Chain' NoTwoSp (pyStripBy p l) := by
  rw [pyStripBy]
  have h1 := chain_dropWhile (p := p) h
  have h2 : List.Chain' NoTwoSp (l.dropWhile p).reverse := by
    rw [List.chain'_reverse]
    exact h1.imp (fun a b hab => noTwoSp_flip hab)
  have h3 := chain_dropWhile (p := p) h2
  rw [List.chain'_reverse]
  exact h3.imp (fun a b hab => noTwoSp_flip hab)

/-! ### Claims C2, C3, C4 about the Path Sanitizer -/

/-- The characters of `sanitize_path_component`'s intermediate
`' '.join(split(map sanitizeChar s))` stage are benign. -/
theorem mem_sanitize_core {s : Str} {c : Char}
    (h : c ∈ normalizeWS (s.map sanitizeChar)) :
    c ∉ problematic_chars ∧ 32 ≤ c.toNat := by
  rcases mem_spJoin _ _ h with rfl | ⟨w, hw, hcw⟩
  · exact ⟨by decide, by decide⟩
  · have h2 := (pySplit_sound (s.map sanitizeChar).length _ le_rfl w hw).2 c hcw
    exact sanitizeChar_mem_image h2.2

/-- C2: the Path Sanitizer's output contains none of the problematic characters
`/ \ : * ? " < > | tab newline carriage-return` and no control character
(the source's notion of control character: code point below 32, line 249). -/
theorem sanitize_path_component_no_bad_chars (s : Str) (c : Char)
    (h : c ∈ sanitize_path_component s) :
    c ∉ problematic_chars ∧ 32 ≤ c.toNat := by
  rw [sanitize_path_component] at h
  by_cases hs : s = []
  · rw [if_pos hs] at h
    simp at h
  · rw [if_neg hs, sanitize_core_eq_map] at h
    exact mem_sanitize_core (mem_of_mem_pyStripBy h)

/-- Witness for C2 at a concrete input. -/
theorem sanitize_path_component_no_bad_chars_witness :
    'a' ∈ sanitize_path_component ("a:b".toList) ∧
    ('a' ∉ problematic_chars ∧ 32 ≤ 'a'.toNat) :=
  ⟨by decide, sanitize_path_component_no_bad_chars ("a:b".toList) 'a' (by decide)⟩

/-- C3 (amended): the Path Sanitizer never lengthens its input.  (It performs
no 200-character truncation: that is done in `generate_output_path` on the
combined file name, not in `sanitize_path_component`.) -/
theorem sanitize_path_component_length_le (s : Str) :
    (sanitize_path_component s).length ≤ s.length := by
  rw [sanitize_path_component]
  by_cases hs : s = []
  · rw [if_pos hs, hs]
  · rw [if_neg hs, sanitize_core_eq_map]
    have h1 := length_pyStripBy_le isDotSpace (normalizeWS (s.map sanitizeChar))
    have h2 := spJoin_pySplit_length (s.map sanitizeChar).length _ le_rfl
    rw [List.length_map] at h2
    exact le_trans h1 h2

/-- C3 counterexample: on 201 letters `x`, the sanitizer returns all 201
characters, so its output is not bounded by 200 characters. -/
theorem sanitize_path_component_length_not_le_200 :
    ¬((sanitize_path_component (List.replicate 201 'x')).length ≤ 200) := by
  have h : sanitize_path_component (List.replicate 201 'x') = List.replicate 201 'x' := by
    apply sanitize_plain_fixed
    · intro hc
      have := congrArg List.length hc
      simp at this
    · intro c hc
      have hcx : c = 'x' := List.eq_of_mem_replicate hc
      subst hcx
      exact ⟨by decide, by decide, by decide⟩
  rw [h, List.length_replicate]
  omega

/-- C4: the Path Sanitizer is idempotent. -/
theorem sanitize_path_component_idem (s : Str) :
    sanitize_path_component (sanitize_path_component s) = sanitize_path_component s := by
  by_cases hs : s = []
  · rw [hs]
    rfl
  · have hts : sanitize_path_component s =
        stripDotSpace (normalizeWS (s.map sanitizeChar)) := by
      rw [sanitize_path_component, if_neg hs, sanitize_core_eq_map]
    rw [hts]
    set core := normalizeWS (s.map sanitizeChar) with hcore
    set t := stripDotSpace core with htdef
    by_cases ht : t = []
    · rw [ht]
      rfl
    · rw [sanitize_path_component, if_neg ht]
      -- every character of t is a space or a fixed point of sanitizeChar
      have hmem_t : ∀ c ∈ t, c = ' ' ∨ (sanitizeChar c = c ∧ isPySpace c = false ∧ c ≠ ' ') := by
        intro c hc
        have hc2 : c ∈ core := mem_of_mem_pyStripBy hc
        rcases mem_spJoin _ _ hc2 with rfl | ⟨w, hw, hcw⟩
        · exact Or.inl rfl
        · obtain ⟨_, hsound⟩ := pySplit_sound (s.map sanitizeChar).length _ le_rfl w hw
          obtain ⟨hns, hmem⟩ := hsound c hcw
          refine Or.inr ⟨sanitizeChar_fix_image hmem, hns, ?_⟩
          intro hsp
          subst hsp
          simp [isPySpace, pySpaceCodes] at hns
      have hmap : t.map sanitizeChar = t := by
        apply map_fix
        intro c hc
        rcases hmem_t c hc with rfl | ⟨hfix, _, _⟩
        · decide
        · exact hfix
      have h1 : ∀ c ∈ t, isPySpace c = true → c = ' ' := by
        intro c hc hsp
        rcases hmem_t c hc with rfl | ⟨_, hns, _⟩
        · rfl
        · rw [hns] at hsp
          cases hsp
      have h2 : t.head? ≠ some ' ' := by
        intro hh
        obtain ⟨r, hr⟩ := exists_cons_of_head? hh
        have := pyStripBy_head (p := isDotSpace) (s := core) hr
        simp [isDotSpace] at this
      have h3 : t.getLast? ≠ some ' ' := by
        intro hh
        have := pyStripBy_last (p := isDotSpace) (s := core) hh
        simp [isDotSpace] at this
      have h4 : List.Chain' NoTwoSp t := by
        apply chain_pyStripBy
        apply chain_spJoin
        intro w hw
        obtain ⟨hne, hsound⟩ := pySplit_sound (s.map sanitizeChar).length _ le_rfl w hw
        refine ⟨hne, fun c hc => ?_⟩
        intro hsp
        subst hsp
        have := (hsound ' ' hc).1
        simp [isPySpace, pySpaceCodes] at this
      have hrecover : normalizeWS t = t :=
        spJoin_pySplit_of_normal t.length t le_rfl h1 h2 h3 h4
      rw [sanitize_core_eq_map, hmap, hrecover]
      exact pyStripBy_idem isDotSpace core

/-- Every target of `INTERPRETER_MAPPINGS` is a key of `COMMENT_STYLES`, so the
lookup `COMMENT_STYLES[interpreter_type]` on line 85 can never raise. -/
theorem mapping_targets_have_style :
    ∀ pr ∈ INTERPRETER_MAPPINGS, (List.lookup pr.2 COMMENT_STYLES).isSome := by
  decide

/-! ### C5: exactly one separator element per non-empty paragraph -/

theorem getElem1_append_left {a b : Str} (h : 1 < a.length) : (a ++ b)[1]? = a[1]? := by
  rw [List.getElem?_append, if_pos h]

theorem second_magic (rest : Str) : ((" MAGIC ".toList) ++ rest)[1]? = some 'M' := by
  rw [getElem1_append_left (by decide)]
  decide

theorem second_dbtitle (rest : Str) : ((" DBTITLE 1, ".toList) ++ rest)[1]? = some 'D' := by
  rw [getElem1_append_left (by decide)]
  decide

theorem headerLine_ne_sepLine (comment : Str) : headerLine comment ≠ sepLine comment := by
  intro h
  simp only [headerLine, sepLine] at h
  exact absurd (List.append_cancel_left h) (by decide)

theorem titleLine_ne_sepLine (comment : Str) (p : Paragraph) :
    titleLineOf comment p ≠ sepLine comment := by
  intro h
  simp only [titleLineOf, sepLine] at h
  have h2 := List.append_cancel_left h
  have h3 := second_dbtitle
    ((match p.title with
      | some t => t
      | none => "None".toList) ++ ("\n".toList))
  rw [h2] at h3
  exact absurd h3 (by decide)

theorem tagLine_ne_sepLine (comment tag ic : Str) :
    tagLine comment tag ic ≠ sepLine comment := by
  intro h
  simp only [tagLine, sepLine] at h
  have h2 := List.append_cancel_left h
  have h3 := second_magic (tag ++ (("\n".toList) ++ ic))
  rw [h2] at h3
  exact absurd h3 (by decide)

theorem bodyLine_ne_sepLine (comment l : Str) : bodyLine comment l ≠ sepLine comment := by
  intro h
  simp only [bodyLine, sepLine] at h
  have h2 := List.append_cancel_left h
  have h3 := second_magic (l ++ ("\n".toList))
  rw [h2] at h3
  exact absurd h3 (by decide)

theorem count_sep_cellBlock (comment dl : Str) (p : Paragraph) :
    List.count (sepLine comment) (cellBlock comment dl p) =
      if stripWS (p.text.getD []) = [] then 0 else 1 := by
  rw [cellBlock]
  by_cases h : stripWS (p.text.getD []) = []
  · rw [if_pos h, if_pos h, List.count_nil]
  · rw [if_neg h, if_neg h]
    rw [List.count_cons, List.count_cons, List.count_append]
    have ht : (titleLineOf comment p == sepLine comment) = false :=
      beq_eq_false_iff_ne.mpr (titleLine_ne_sepLine comment p)
    have hg : (tagLine comment
        (directiveStep comment dl ((stripWS (p.text.getD [])).splitOn '\n')).1
        (directiveStep comment dl ((stripWS (p.text.getD [])).splitOn '\n')).2.1 ==
        sepLine comment) = false :=
      beq_eq_false_iff_ne.mpr (tagLine_ne_sepLine comment _ _)
    have hbody : List.count (sepLine comment)
        ((directiveStep comment dl ((stripWS (p.text.getD [])).splitOn '\n')).2.2.map
          (bodyLine comment)) = 0 := by
      rw [List.count_eq_zero]
      intro hmem
      obtain ⟨l, _, hl⟩ := List.mem_map.mp hmem
      exact bodyLine_ne_sepLine comment l hl
    rw [ht, hg, hbody]
    simp

theorem count_sep_flatten (comment dl : Str) : ∀ (nb : List Paragraph),
    List.count (sepLine comment) ((nb.map (cellBlock comment dl)).flatten) =
      (nb.filter (fun p => !(stripWS (p.text.getD [])).isEmpty)).length := by
  intro nb
  induction nb with
  | nil => simp
  | cons p rest ih =>
    simp only [List.map_cons, List.flatten_cons, List.count_append, ih, List.filter_cons]
    rw [count_sep_cellBlock]
    by_cases h : stripWS (p.text.getD []) = []
    · rw [if_pos h]
      have h2 : (!(stripWS (p.text.getD [])).isEmpty) = false := by
        simp [List.isEmpty_iff, h]
      rw [h2]
      simp
    · rw [if_neg h]
      have h2 : (!(stripWS (p.text.getD [])).isEmpty) = true := by
        simp [List.isEmpty_iff, h]
      rw [h2]
      simp only [if_true, List.length_cons]
      omega

theorem cellBlock_filter (comment dl : Str) : ∀ (nb : List Paragraph),
    ((nb.filter (fun p => !(stripWS (p.text.getD [])).isEmpty)).map
      (cellBlock comment dl)).flatten = (nb.map (cellBlock comment dl)).flatten := by
  intro nb
  induction nb with
  | nil => rfl
  | cons p rest ih =>
    simp only [List.filter_cons]
    by_cases h : stripWS (p.text.getD []) = []
    · have h2 : (!(stripWS (p.text.getD [])).isEmpty) = false := by
        simp [List.isEmpty_iff, h]
      rw [h2]
      have h3 : cellBlock comment dl p = [] := by rw [cellBlock, if_pos h]
      simp only [Bool.false_eq_true, if_false, List.map_cons, List.flatten_cons, h3,
        List.nil_append, ih]
    · have h2 : (!(stripWS (p.text.getD [])).isEmpty) = true := by
        simp [List.isEmpty_iff, h]
      rw [h2]
      simp only [if_true, List.map_cons, List.flatten_cons, ih]

theorem cellTag_filter (comment dl : Str) : ∀ (nb : List Paragraph),
    (nb.filter (fun p => !(stripWS (p.text.getD [])).isEmpty)).filterMap
      (cellTag comment dl) = nb.filterMap (cellTag comment dl) := by
  intro nb
  induction nb with
  | nil => rfl
  | cons p rest ih =>
    simp only [List.filter_cons]
    by_cases h : stripWS (p.text.getD []) = []
    · have h2 : (!(stripWS (p.text.getD [])).isEmpty) = false := by
        simp [List.isEmpty_iff, h]
      rw [h2]
      have h3 : cellTag comment dl p = none := by rw [cellTag, if_pos h]
      simp only [Bool.false_eq_true, if_false, List.filterMap_cons, h3, ih]
    · have h2 : (!(stripWS (p.text.getD [])).isEmpty) = true := by
        simp [List.isEmpty_iff, h]
      rw [h2]
      simp only [if_true, List.filterMap_cons, ih]

/-- C5: for every paragraph list and every supported default language, the
Cell Converter emits exactly one cell-separator element per paragraph with
non-empty trimmed text, and paragraphs with empty trimmed text contribute
nothing at all (neither output lines nor interpreter-usage counts). -/
theorem convert_notebook_sep_per_nonempty (nb : List Paragraph) (dl comment : Str)
    (hdl : List.lookup dl COMMENT_STYLES = some comment) :
    (∃ lines usage, convert_notebook nb dl = some (lines, usage) ∧
      List.count (sepLine comment) lines =
        (nb.filter (fun p => !(stripWS (p.text.getD [])).isEmpty)).length) ∧
    convert_notebook nb dl =
      convert_notebook (nb.filter (fun p => !(stripWS (p.text.getD [])).isEmpty)) dl := by
  constructor
  · refine ⟨headerLine comment :: (nb.map (cellBlock comment dl)).flatten,
      nb.filterMap (cellTag comment dl), by simp only [convert_notebook, hdl], ?_⟩
    rw [List.count_cons, count_sep_flatten comment dl nb,
      beq_eq_false_iff_ne.mpr (headerLine_ne_sepLine comment)]
    simp
  · simp only [convert_notebook, hdl]
    rw [cellBlock_filter comment dl nb, cellTag_filter comment dl nb]

/-- Witness for C5: a two-paragraph notebook (one `%pyspark` cell, one
whitespace-only cell) under default language `%scala`. -/
theorem convert_notebook_sep_per_nonempty_witness :
    List.lookup ("%scala".toList) COMMENT_STYLES = some ("//".toList) ∧
    ((∃ lines usage,
        convert_notebook
          [⟨some ("%pyspark\nprint(1)".toList), some ("t".toList), none⟩,
           ⟨some ("  ".toList), none, none⟩] ("%scala".toList) = some (lines, usage) ∧
        List.count (sepLine ("//".toList)) lines =
          (([⟨some ("%pyspark\nprint(1)".toList), some ("t".toList), none⟩,
             ⟨some ("  ".toList), none, none⟩] : List Paragraph).filter
            (fun p => !(stripWS (p.text.getD [])).isEmpty)).length) ∧
      convert_notebook
          [⟨some ("%pyspark\nprint(1)".toList), some ("t".toList), none⟩,
           ⟨some ("  ".toList), none, none⟩] ("%scala".toList) =
        convert_notebook
          (([⟨some ("%pyspark\nprint(1)".toList), some ("t".toList), none⟩,
             ⟨some ("  ".toList), none, none⟩] : List Paragraph).filter
            (fun p => !(stripWS (p.text.getD [])).isEmpty)) ("%scala".toList)) :=
  ⟨by decide, convert_notebook_sep_per_nonempty _ ("%scala".toList) ("//".toList) (by decide)⟩

/-! ### C7: loader failure is exactly a missing `paragraphs` field -/

/-- A paragraph whose `dateUpdated` is absent, empty or unparseable does not
change the `latest_date` accumulator. -/
theorem latestDate_step_skip (p : Paragraph)
    (hbad : ∀ s, p.dateUpdated = some s → strptimeMicro s = none) :
    ∀ ps1 ps2 : List Paragraph,
      latestDate (ps1 ++ p :: ps2) = latestDate (ps1 ++ ps2) := by
  have hstep : ∀ (latest : Option Int), latestStep latest p = latest := by
    intro latest
    cases hd : p.dateUpdated with
    | none => simp only [latestStep, hd]
    | some s =>
      simp only [latestStep, hd]
      by_cases hse : s ≠ []
      · rw [if_pos hse, hbad s hd]
      · rw [if_neg hse]
  intro ps1 ps2
  rw [latestDate, latestDate, List.foldl_append, List.foldl_append, List.foldl_cons,
    hstep]

/-- C7: the Notebook Loader fails if and only if the top-level `paragraphs`
field is absent; a paragraph whose `dateUpdated` is missing, empty or
unparseable never causes failure and is silently skipped when computing the
latest-update time. -/
theorem load_notebook_json_error_iff (file_path : Str) (doc : RawDoc) :
    ((∃ e, load_notebook_json file_path doc = Except.error e) ↔
      doc.paragraphs = none) ∧
    (∀ ps1 ps2 p, doc.paragraphs = some (ps1 ++ p :: ps2) →
      (∀ s, p.dateUpdated = some s → strptimeMicro s = none) →
      ∃ nb, load_notebook_json file_path doc = Except.ok nb ∧
        nb.last_updated = latestDate (ps1 ++ ps2)) := by
  constructor
  · cases h : doc.paragraphs with
    | none =>
      exact ⟨fun _ => rfl, fun _ => ⟨("Missing paragraphs field in ".toList) ++ file_path,
        by rw [load_notebook_json, h]⟩⟩
    | some ps =>
      constructor
      · rintro ⟨e, he⟩
        rw [load_notebook_json, h] at he
        cases he
      · intro hc
        cases hc
  · intro ps1 ps2 p hps hbad
    refine ⟨_, by rw [load_notebook_json, hps], ?_⟩
    exact latestDate_step_skip p hbad ps1 ps2

/-- Witness for C7: a document with no `paragraphs` errors; a document whose
single paragraph has an unparseable date loads, with no latest-update time. -/
theorem load_notebook_json_error_iff_witness :
    (∃ e, load_notebook_json ("a.json".toList)
        ⟨none, none, none⟩ = Except.error e) ∧
    (∃ nb, load_notebook_json ("a.json".toList)
        ⟨some [⟨none, none, some ("not a date".toList)⟩], none, none⟩ =
          Except.ok nb ∧
      nb.last_updated = latestDate ([] ++ [])) := by
  constructor
  · exact (load_notebook_json_error_iff ("a.json".toList) ⟨none, none, none⟩).1.mpr rfl
  · exact (load_notebook_json_error_iff ("a.json".toList)
      ⟨some [⟨none, none, some ("not a date".toList)⟩], none, none⟩).2 [] []
      ⟨none, none, some ("not a date".toList)⟩ rfl
      (fun s hs => by
        injection hs with h2
        rw [← h2]
        decide)

theorem convertAndWrite_ne_skip (nb : Notebook) (dl comment : Str) (N : Int)
    (wr : Except Str Str) (hdl : List.lookup dl COMMENT_STYLES = some comment)
    (hw : wr ≠ Except.error (skippedOldMsg N)) :
    convertAndWrite nb dl wr ≠ (false, skippedOldMsg N, []) := by
  simp only [convertAndWrite]
  have hsome : (convert_notebook nb.json dl).isSome = true := by
    simp only [convert_notebook, hdl]
    rfl
  cases hcv : convert_notebook nb.json dl with
  | none =>
    rw [hcv] at hsome
    cases hsome
  | some pr =>
    cases hwr : wr with
    | ok msg =>
      intro h
      simp only [Prod.mk.injEq] at h
      exact absurd h.1 (by decide)
    | error e =>
      intro h
      simp only [Prod.mk.injEq] at h
      exact hw (by rw [hwr, h.2.1])

/-- C6: with a positive age threshold `N` configured, a loaded notebook with
content is reported skipped-too-old exactly when its latest-update timestamp
is strictly earlier than `now - N` days; in particular a notebook with no
resolvable timestamp is never skipped by age.  (Side conditions: the default
language is supported, and the abstract write outcome is not an exception
whose text coincides with the skip message.) -/
theorem process_single_file_age_filter (nb : Notebook) (dl comment : Str)
    (now N : Int) (wr : Except Str Str) (hN : 0 < N)
    (hdl : List.lookup dl COMMENT_STYLES = some comment)
    (hc : nb.json.any (fun p => !(stripWS (p.text.getD [])).isEmpty) = true)
    (hw : wr ≠ Except.error (skippedOldMsg N)) :
    process_single_file (Except.ok nb) dl now (some N) wr =
      (false, skippedOldMsg N, []) ↔
    ∃ lu, nb.last_updated = some lu ∧ lu < now - N * usPerDay := by
  simp only [process_single_file, hc, Bool.not_true, Bool.false_eq_true, if_false]
  cases hlu : nb.last_updated with
  | none =>
    rw [show ageSkipCheck (some N) none now = none from rfl]
    constructor
    · intro h1
      exact absurd h1 (convertAndWrite_ne_skip nb dl comment N wr hdl hw)
    · rintro ⟨lu, hlu2, -⟩
      cases hlu2
  | some lu0 =>
    by_cases hlt : lu0 < now - N * usPerDay
    · have hred : ageSkipCheck (some N) (some lu0) now = some (skippedOldMsg N) := by
        simp only [ageSkipCheck]
        rw [if_pos ⟨by omega, hlt⟩]
      rw [hred]
      constructor
      · intro _
        exact ⟨lu0, rfl, hlt⟩
      · intro _
        rfl
    · have hred : ageSkipCheck (some N) (some lu0) now = none := by
        simp only [ageSkipCheck]
        rw [if_neg (fun hcon => hlt hcon.2)]
      rw [hred]
      constructor
      · intro h1
        exact absurd h1 (convertAndWrite_ne_skip nb dl comment N wr hdl hw)
      · rintro ⟨lu, hlu2, hlt2⟩
        injection hlu2 with h3
        exact absurd (by rw [h3]; exact hlt2) hlt

/-- Witness for C6: with `--skip_old_days 7` and `now = 0`, a notebook whose
timestamp is one second older than `now - 7 days` is skipped, and one whose
timestamp is one second newer is not. -/
theorem process_single_file_age_filter_witness :
    process_single_file
        (Except.ok ⟨[⟨some ("x".toList), none, none⟩], [], [],
          some (-604801000000)⟩)
        ("%scala".toList) 0 (some 7) (Except.ok ("done".toList)) =
      (false, skippedOldMsg 7, []) ∧
    process_single_file
        (Except.ok ⟨[⟨some ("x".toList), none, none⟩], [], [],
          some (-604799000000)⟩)
        ("%scala".toList) 0 (some 7) (Except.ok ("done".toList)) ≠
      (false, skippedOldMsg 7, []) := by
  constructor
  · exact (process_single_file_age_filter _ _ ("//".toList) 0 7 _ (by decide)
      (by decide) (by decide) (fun h => Except.noConfusion h)).mpr
      ⟨-604801000000, rfl, by decide⟩
  · intro h
    obtain ⟨lu, hlu, hlt⟩ := (process_single_file_age_filter _ _ ("//".toList) 0 7 _
      (by decide) (by decide) (by decide) (fun h2 => Except.noConfusion h2)).mp h
    injection hlu with h3
    rw [← h3] at hlt
    exact absurd hlt (by decide)

/-- Field-level characterization of `process_files`. -/
theorem process_files_fields : ∀ (outcomes : List FileOutcome),
    (process_files outcomes).failed_files =
      (outcomes.filter isFail).map (fun e => (e.path, e.message)) ∧
    (process_files outcomes).skipped_files =
      (outcomes.filter isSkip).map (fun e => e.path) ∧
    (process_files outcomes).successful_files =
      (outcomes.filter (fun e => e.success)).map (fun e => e.path) := by
  intro outcomes
  induction outcomes with
  | nil => exact ⟨rfl, rfl, rfl⟩
  | cons e rest ih =>
    obtain ⟨ih1, ih2, ih3⟩ := ih
    simp only [process_files, List.filter_cons]
    cases hs : e.success with
    | true =>
      have hf : isFail e = false := by
        simp only [isFail]
        rw [hs]
        simp
      have hk : isSkip e = false := by
        simp only [isSkip]
        rw [hs]
        simp
      simp only [hf, hk, Bool.false_eq_true, if_false, if_true]
      exact ⟨ih1, ih2, by simp only [List.map_cons, ih3]⟩
    | false =>
      simp only [Bool.false_eq_true, if_false]
      cases hsub : containsSub ("Skipped".toList) e.message with
      | true =>
        have hf : isFail e = false := by
          simp only [isFail]
          rw [hsub]
          simp
        have hk : isSkip e = true := by
          simp only [isSkip]
          rw [hs, hsub]
          simp
        simp only [hf, hk, Bool.false_eq_true, if_false, if_true]
        exact ⟨ih1, by simp only [List.map_cons, ih2], ih3⟩
      | false =>
        have hf : isFail e = true := by
          simp only [isFail]
          rw [hs, hsub]
          simp
        have hk : isSkip e = false := by
          simp only [isSkip]
          rw [hsub]
          simp
        simp only [hf, hk, Bool.false_eq_true, if_false, if_true]
        exact ⟨by simp only [List.map_cons, ih1], ih2, ih3⟩

theorem exitCode_ne_zero_iff (outcomes : List FileOutcome) :
    mainExitCode (process_files outcomes) ≠ 0 ↔
      ∃ e ∈ outcomes, e.success = false ∧
        containsSub ("Skipped".toList) e.message = false := by
  rw [mainExitCode]
  obtain ⟨hf, -, -⟩ := process_files_fields outcomes
  rw [hf]
  by_cases hnil : (outcomes.filter isFail) = []
  · rw [hnil]
    simp only [List.map_nil, List.isEmpty_nil, if_true]
    constructor
    · intro hcon
      exact absurd rfl hcon
    · rintro ⟨e, he, hs, hsub⟩
      have : isFail e = true := by
        simp only [isFail]
        rw [hs, hsub]
        simp
      have h2 : e ∈ outcomes.filter isFail := List.mem_filter.mpr ⟨he, this⟩
      rw [hnil] at h2
      cases h2
  · obtain ⟨e, he⟩ := List.exists_mem_of_ne_nil _ hnil
    have hmape : (outcomes.filter isFail).map (fun e => (e.path, e.message)) ≠ [] := by
      intro hcon
      rw [List.map_eq_nil_iff] at hcon
      exact hnil hcon
    have hempty : ((outcomes.filter isFail).map
        (fun e => (e.path, e.message))).isEmpty = false := by
      cases hmm : (outcomes.filter isFail).map (fun e => (e.path, e.message)) with
      | nil => exact absurd hmm hmape
      | cons x xs => rfl
    rw [hempty]
    simp only [Bool.false_eq_true, if_false]
    constructor
    · intro _
      obtain ⟨hmem, hfe⟩ := List.mem_filter.mp he
      simp only [isFail, Bool.and_eq_true] at hfe
      refine ⟨e, hmem, ?_, ?_⟩
      · cases hse : e.success with
        | true => rw [hse] at hfe; exact absurd hfe.1 (by decide)
        | false => rfl
      · cases hsub : containsSub ("Skipped".toList) e.message with
        | true => rw [hsub] at hfe; exact absurd hfe.2 (by decide)
        | false => rfl
    · intro _
      decide

/-- C8: the batch terminates with a non-zero exit status exactly when some
file's processing was recorded as failed (not successful, message without
`"Skipped"`); the number of skipped files plays no role. -/
theorem process_files_exit_code (outcomes : List FileOutcome) :
    mainExitCode (process_files outcomes) ≠ 0 ↔
      ∃ e ∈ outcomes, e.success = false ∧
        containsSub ("Skipped".toList) e.message = false :=
  exitCode_ne_zero_iff outcomes

/-- C10: a `process_single_file` failure whose message contains the substring
`"Skipped"` is recorded in the skipped list, never in the failed list; hence
if every failure in the batch carries such a message, the exit status is 0. -/
theorem process_files_skipped_message (outcomes : List FileOutcome)
    (e : FileOutcome) (he : e ∈ outcomes) (hs : e.success = false)
    (hsub : containsSub ("Skipped".toList) e.message = true) :
    e.path ∈ (process_files outcomes).skipped_files ∧
    (e.path, e.message) ∉ (process_files outcomes).failed_files ∧
    ((∀ x ∈ outcomes, x.success = false →
        containsSub ("Skipped".toList) x.message = true) →
      mainExitCode (process_files outcomes) = 0) := by
  obtain ⟨hf, hk, -⟩ := process_files_fields outcomes
  refine ⟨?_, ?_, ?_⟩
  · rw [hk]
    refine List.mem_map.mpr ⟨e, List.mem_filter.mpr ⟨he, ?_⟩, rfl⟩
    simp only [isSkip]
    rw [hs, hsub]
    simp
  · rw [hf]
    intro hmem
    obtain ⟨x, hx, hxe⟩ := List.mem_map.mp hmem
    obtain ⟨-, hxf⟩ := List.mem_filter.mp hx
    have hxm : x.message = e.message := congrArg Prod.snd hxe
    simp only [isFail, Bool.and_eq_true] at hxf
    rw [hxm, hsub] at hxf
    exact absurd hxf.2 (by decide)
  · intro hall
    cases hz : mainExitCode (process_files outcomes) with
    | zero => rfl
    | succ k =>
      have : mainExitCode (process_files outcomes) ≠ 0 := by rw [hz]; exact Nat.succ_ne_zero k
      obtain ⟨x, hx, hxs, hxsub⟩ := (exitCode_ne_zero_iff outcomes).mp this
      rw [hall x hx hxs] at hxsub
      cases hxsub

/-- Witness for C10: a single failure whose exception text mentions a path
containing `"Skipped"` lands in the skipped list and the batch exits 0. -/
theorem process_files_skipped_message_witness :
    ("a.json".toList) ∈ (process_files
        [⟨"a.json".toList, false, "Error: /x/Skipped/a.json".toList, []⟩]).skipped_files ∧
    (("a.json".toList), ("Error: /x/Skipped/a.json".toList)) ∉ (process_files
        [⟨"a.json".toList, false, "Error: /x/Skipped/a.json".toList, []⟩]).failed_files ∧
    mainExitCode (process_files
        [⟨"a.json".toList, false, "Error: /x/Skipped/a.json".toList, []⟩]) = 0 := by
  have h := process_files_skipped_message
      [⟨"a.json".toList, false, "Error: /x/Skipped/a.json".toList, []⟩]
      ⟨"a.json".toList, false, "Error: /x/Skipped/a.json".toList, []⟩
      (List.mem_singleton.mpr rfl) rfl (by decide)
  refine ⟨h.1, h.2.1, h.2.2 ?_⟩
  intro x hx hxs
  have hxe := List.mem_singleton.mp hx
  subst hxe
  decide

theorem find_counter_free (fs : FS) (directory nm ext fallback : Str)
    (hfb : pathExists fs fallback = false) :
    pathExists fs (match (List.range' 1 999).find?
        (fun k => !pathExists fs (counterPath directory nm ext k)) with
      | some k => counterPath directory nm ext k
      | none => fallback) = false := by
  cases hf : (List.range' 1 999).find?
      (fun k => !pathExists fs (counterPath directory nm ext k)) with
  | none => exact hfb
  | some k =>
    have h2 := List.find?_some hf
    simpa using h2

/-- C1 (amended): if nothing exists at the candidate path, it is returned
unchanged; and whenever the candidate, if it exists, is a regular file or a
directory and the timestamp-suffixed fallback name is itself free at call
time, the resolver returns a path that does not exist.  (The two gaps forced
by the code: a candidate that exists as neither file nor directory is
returned unchanged even though it exists, and the timestamp fallback is
returned without an existence check.) -/
theorem resolve_filename_conflicts_spec (fs : FS) (nowStamp output_path : Str)
    (hother : fs output_path ≠ some PathKind.other)
    (hts : pathExists fs (tsFallbackPath nowStamp output_path) = false) :
    pathExists fs (resolve_filename_conflicts fs nowStamp output_path) = false ∧
    (fs output_path = none →
      resolve_filename_conflicts fs nowStamp output_path = output_path) := by
  cases hk : fs output_path with
  | none =>
    have h1 : pathExists fs output_path = false := by rw [pathExists, hk]; rfl
    rw [resolve_filename_conflicts, if_pos h1]
    exact ⟨h1, fun _ => rfl⟩
  | some k =>
    have h1 : pathExists fs output_path = true := by rw [pathExists, hk]; rfl
    have h1f : ¬(pathExists fs output_path = false) := by rw [h1]; exact fun h => Bool.noConfusion h
    refine ⟨?_, fun hcon => Option.noConfusion hcon⟩
    rw [resolve_filename_conflicts, if_neg h1f]
    cases k with
    | dir =>
      have hd : isDir fs output_path = true := by rw [isDir, hk]
      rw [if_pos hd]
      simp only
      by_cases hp1 : pathExists fs (joinPath (dirnameOf output_path)
          ((splitExt (basenameOf output_path)).1 ++ ("_notebook".toList) ++
            (splitExt (basenameOf output_path)).2)) = false
      · rw [if_pos hp1]
        exact hp1
      · rw [if_neg hp1]
        by_cases hp2 : pathExists fs (joinPath (dirnameOf output_path)
            ((splitExt (basenameOf output_path)).1 ++ ("_file".toList) ++
              (splitExt (basenameOf output_path)).2)) = false
        · rw [if_pos hp2]
          exact hp2
        · rw [if_neg hp2]
          exact find_counter_free fs _ _ _ _ hts
    | file =>
      have hd : isDir fs output_path = false := by rw [isDir, hk]
      have hdf : ¬(isDir fs output_path = true) := by rw [hd]; exact fun h => Bool.noConfusion h
      have hf : isFile fs output_path = true := by rw [isFile, hk]
      rw [if_neg hdf, if_pos hf]
      simp only
      exact find_counter_free fs _ _ _ _ hts
    | other => exact absurd hk hother

/-- Witness for C1: the empty filesystem returns the candidate unchanged. -/
theorem resolve_filename_conflicts_spec_witness :
    pathExists (fun _ => none) (resolve_filename_conflicts (fun _ => none)
      ("20240101_000000".toList) ("report.py".toList)) = false ∧
    ((fun _ => (none : Option PathKind)) ("report.py".toList) = none →
      resolve_filename_conflicts (fun _ => none) ("20240101_000000".toList)
        ("report.py".toList) = ("report.py".toList)) :=
  resolve_filename_conflicts_spec (fun _ => none) ("20240101_000000".toList)
    ("report.py".toList) (fun h => Option.noConfusion h) rfl

/-- C1 counterexample: on a filesystem where every path exists as a regular
file (a directory holding `nb.py`, `nb_001.py`, ..., `nb_999.py` and
`nb_20240101_000000.py`), the resolver falls back to the timestamp-suffixed
name without checking it and returns a path that exists at call time. -/
theorem resolve_filename_conflicts_claim_false :
    pathExists (fun _ => some PathKind.file)
      (resolve_filename_conflicts (fun _ => some PathKind.file)
        ("20240101_000000".toList) ("nb.py".toList)) = true ∧
    resolve_filename_conflicts (fun _ => some PathKind.file)
        ("20240101_000000".toList) ("nb.py".toList) =
      tsFallbackPath ("20240101_000000".toList) ("nb.py".toList) := by
  constructor
  · rfl
  · decide

theorem copyFilesIn_true (cp : Str → Str → Except Str Unit)
    (rootP targetP parent : Str) : ∀ files : List Str,
    copyFilesIn cp true rootP targetP parent files =
      Except.ok ((files.map (fun f =>
        (joinPath rootP f, joinPath targetP (destName parent f)))).filter (cpOk cp)) := by
  intro files
  induction files with
  | nil => rfl
  | cons f rest ih =>
    simp only [copyFilesIn, List.map_cons, List.filter_cons]
    cases hc : cp (joinPath rootP f) (joinPath targetP (destName parent f)) with
    | ok u =>
      rw [ih]
      have hok : cpOk cp (joinPath rootP f, joinPath targetP (destName parent f)) = true := by
        simp only [cpOk, hc]
      rw [hok, if_pos rfl]
    | error e =>
      have hok : cpOk cp (joinPath rootP f, joinPath targetP (destName parent f)) = false := by
        simp only [cpOk, hc]
      rw [hok]
      simp only [Bool.false_eq_true, if_false]
      exact ih

theorem copyFilesIn_false (cp : Str → Str → Except Str Unit)
    (rootP targetP parent : Str) : ∀ files : List Str,
    copyFilesIn cp false rootP targetP parent files =
      (match firstCopyError cp (files.map (fun f =>
          (joinPath rootP f, joinPath targetP (destName parent f)))) with
       | some e => Except.error e
       | none => Except.ok (files.map (fun f =>
           (joinPath rootP f, joinPath targetP (destName parent f))))) := by
  intro files
  induction files with
  | nil => rfl
  | cons f rest ih =>
    simp only [copyFilesIn, List.map_cons, firstCopyError, List.filterMap_cons]
    cases hc : cp (joinPath rootP f) (joinPath targetP (destName parent f)) with
    | ok u =>
      rw [ih]
      simp only [firstCopyError]
      cases hfe : (rest.map (fun f =>
          (joinPath rootP f, joinPath targetP (destName parent f)))).filterMap
            (fun pr => match cp pr.1 pr.2 with
              | Except.ok _ => none
              | Except.error e => some e) with
      | nil => rfl
      | cons x xs => rfl
    | error e =>
      simp only [Bool.false_eq_true, if_false, List.head?_cons]

theorem copy_with_rename_true (cp : Str → Str → Except Str Unit)
    (src_dir dest_dir : Str) : ∀ walk : List WalkDir,
    copy_with_rename cp src_dir dest_dir walk true =
      Except.ok ((plannedPairs src_dir dest_dir walk).filter (cpOk cp)) := by
  intro walk
  induction walk with
  | nil => rfl
  | cons d rest ih =>
    simp only [copy_with_rename, plannedPairs, List.flatMap_cons]
    rw [copyFilesIn_true, ih]
    simp only [plannedPairs, List.filter_append]

theorem firstCopyError_append (cp : Str → Str → Except Str Unit)
    (l1 l2 : List (Str × Str)) :
    firstCopyError cp (l1 ++ l2) =
      (match firstCopyError cp l1 with
       | some e => some e
       | none => firstCopyError cp l2) := by
  simp only [firstCopyError, List.filterMap_append]
  cases hfe : l1.filterMap (fun pr => match cp pr.1 pr.2 with
      | Except.ok _ => none
      | Except.error e => some e) with
  | nil => simp
  | cons x xs => simp

theorem copy_with_rename_false (cp : Str → Str → Except Str Unit)
    (src_dir dest_dir : Str) : ∀ walk : List WalkDir,
    copy_with_rename cp src_dir dest_dir walk false =
      (match firstCopyError cp (plannedPairs src_dir dest_dir walk) with
       | some e => Except.error e
       | none => Except.ok (plannedPairs src_dir dest_dir walk)) := by
  intro walk
  induction walk with
  | nil => rfl
  | cons d rest ih =>
    have hsplit : plannedPairs src_dir dest_dir (d :: rest) =
        (d.files.map (fun f =>
          (joinPath (joinAll src_dir d.rel) f,
           joinPath (joinAll dest_dir d.rel) (destName (parentNameOf src_dir d.rel) f)))) ++
          plannedPairs src_dir dest_dir rest := by
      simp only [plannedPairs, List.flatMap_cons]
    simp only [copy_with_rename]
    rw [copyFilesIn_false, ih, hsplit, firstCopyError_append]
    cases h1 : firstCopyError cp (d.files.map (fun f =>
        (joinPath (joinAll src_dir d.rel) f,
         joinPath (joinAll dest_dir d.rel) (destName (parentNameOf src_dir d.rel) f)))) with
    | some e => rfl
    | none =>
      cases h2 : firstCopyError cp (plannedPairs src_dir dest_dir rest) with
      | some e => rfl
      | none => rfl

/-- C9: the directory-copy utility copies every file of the source tree into
the destination tree preserving the relative directory structure, renaming
exactly the files whose stem equals the name of their immediate parent
directory to `<stem>_file<ext>`; with `skip_errors` true a failing copy is
skipped and the rest still run, with `skip_errors` false the first copy error
is re-raised. -/
theorem copy_with_rename_spec (cp : Str → Str → Except Str Unit)
    (src_dir dest_dir : Str) (walk : List WalkDir) :
    copy_with_rename cp src_dir dest_dir walk true =
      Except.ok ((plannedPairs src_dir dest_dir walk).filter (cpOk cp)) ∧
    copy_with_rename cp src_dir dest_dir walk false =
      (match firstCopyError cp (plannedPairs src_dir dest_dir walk) with
       | some e => Except.error e
       | none => Except.ok (plannedPairs src_dir dest_dir walk)) :=
  ⟨copy_with_rename_true cp src_dir dest_dir walk,
   copy_with_rename_false cp src_dir dest_dir walk⟩

end ZC

